import Mathlib

/-!
Shallow embedding of the undo/redo history stack, the page collection and
the tool rendering table of `src/static/js/prescription.js`
(class `PrescriptionCanvas`).

Modelling choices:
* A canvas bitmap is abstracted as a natural number (`Bitmap`); the
  white-filled blank canvas is `blankBitmap`.  A fresh canvas and the
  white-filled canvas both render as the blank page, so both are
  identified with `blankBitmap`.
* `canvas.toDataURL()` of a bitmap `b` is modelled as `some b`; the empty
  string placeholder that `addPage` / `initializeCanvas` push into
  `this.pages` is modelled as `none`.  Thus `Snapshot := Option Bitmap`,
  and the JavaScript truthiness test `pages[i] && pages[i] !== ""` in
  `loadPage` is exactly `Option.isSome`.
* `loadCanvasState` (white-fill then `drawImage` of a full-canvas data
  URL, inside `img.onload`) is modelled as synchronously replacing the
  buffer content with the decoded bitmap; on a falsy data URL the image
  never loads and the callback never fires, so the buffer is unchanged.
* JavaScript array assignment `a[i] = v` appends when `i = a.length`
  (`jsSet`); indices strictly beyond the length never occur in the code
  paths modelled here.
* `this.historyStep` starts at `-1` in the constructor, so it is an `Int`.
-/

namespace Prescription

/-- Abstract canvas pixel content. -/
abbrev Bitmap : Type := Nat

/-- The white-filled (blank) canvas. -/
def blankBitmap : Bitmap := 0

/-- A stored page / history entry: `some b` is the data URL of bitmap `b`,
`none` is the empty-string placeholder of a never-saved page slot. -/
abbrev Snapshot : Type := Option Bitmap

/-- `canvas.toDataURL()` on a canvas holding bitmap `b`. -/
def toDataURL (b : Bitmap) : Snapshot := some b

/-- JavaScript array element assignment `a[i] = v`: replaces in range,
appends at `i = a.length`.  (Indices past the end would create a sparse
array; they never occur in the modelled code.) -/
def jsSet (l : List Snapshot) (i : Nat) (v : Snapshot) : List Snapshot :=
  if i = l.length then l ++ [v] else l.set i v

/-- JavaScript array read `a[i]` with an `Int` index: `undefined`
(modelled `none`) when out of range. -/
def historyAt (hist : List Snapshot) (i : Int) : Snapshot :=
  if 0 ≤ i then hist.getD i.toNat none else none

/-- The mutable fields of `PrescriptionCanvas` that the history stack and
the page collection touch. -/
structure CanvasState where
  /-- pixel content of the main canvas -/
  buffer : Bitmap
  /-- `this.pages` -/
  pages : List Snapshot
  /-- `this.currentPageIndex` -/
  currentPageIndex : Nat
  /-- `this.history` -/
  history : List Snapshot
  /-- `this.historyStep` (starts at `-1`) -/
  historyStep : Int
  deriving DecidableEq

/-- Notifications of the error taxonomy that the modelled operations can
surface (each shown as a transient warning / error toast in the code). -/
inductive CanvasError where
  | NothingToUndo
  | NothingToRedo
  | CannotDeleteLastPage
  | AlreadyAtBoundary
  | ImportParseFailure
  deriving DecidableEq

/-- `saveState()` (the history push): increment the step, truncate the
history to the step when the cursor was not at the end, append the data
URL of the buffer, store it in the active page slot, and on overflow past
50 entries drop the oldest entry and decrement the step. -/
def saveState (s : CanvasState) : CanvasState :=
  let step1 : Int := s.historyStep + 1
  let hist1 : List Snapshot :=
    if step1 < (s.history.length : Int) then s.history.take step1.toNat
    else s.history
  let hist2 : List Snapshot := hist1 ++ [toDataURL s.buffer]
  let pages1 : List Snapshot := jsSet s.pages s.currentPageIndex (toDataURL s.buffer)
  if hist2.length > 50 then
    { s with history := hist2.tail, historyStep := step1 - 1, pages := pages1 }
  else
    { s with history := hist2, historyStep := step1, pages := pages1 }

/-- `loadCanvasState(dataURL)`: white-fill then draw the decoded image,
and store the data URL in the active page slot.  On a falsy data URL the
`img.onload` callback never fires, so nothing changes. -/
def loadCanvasState (dataURL : Snapshot) (s : CanvasState) : CanvasState :=
  match dataURL with
  | some b =>
      { s with buffer := b,
               pages := jsSet s.pages s.currentPageIndex dataURL }
  | none => s

/-- `undoLast()`. -/
def undoLast (s : CanvasState) : CanvasState × Option CanvasError :=
  if s.historyStep > 0 then
    let step : Int := s.historyStep - 1
    (loadCanvasState (historyAt s.history step) { s with historyStep := step }, none)
  else
    (s, some CanvasError.NothingToUndo)

/-- `redoLast()`. -/
def redoLast (s : CanvasState) : CanvasState × Option CanvasError :=
  if s.historyStep < (s.history.length : Int) - 1 then
    let step : Int := s.historyStep + 1
    (loadCanvasState (historyAt s.history step) { s with historyStep := step }, none)
  else
    (s, some CanvasError.NothingToRedo)

/-- `loadPage(pageIndex)`: load the stored snapshot when the slot holds a
non-empty data URL, otherwise white-fill the buffer and save the blank
data URL into the slot. -/
def loadPage (pageIndex : Nat) (s : CanvasState) : CanvasState :=
  match s.pages.getD pageIndex none with
  | some b => loadCanvasState (some b) s
  | none =>
      { s with buffer := blankBitmap,
               pages := jsSet s.pages pageIndex (toDataURL blankBitmap) }

/-- `addPage()`: push an empty-string slot, make it active, white-fill the
buffer, then `saveState()`. -/
def addPage (s : CanvasState) : CanvasState :=
  let pages1 := s.pages ++ [none]
  saveState { s with pages := pages1,
                     currentPageIndex := pages1.length - 1,
                     buffer := blankBitmap }

/-- `deletePage()`: refuse on the last page; otherwise splice out the
active entry, clamp the index, and `loadPage` the new active page. -/
def deletePage (s : CanvasState) : CanvasState × Option CanvasError :=
  if s.pages.length > 1 then
    let pages1 := s.pages.eraseIdx s.currentPageIndex
    let idx1 : Nat :=
      if s.currentPageIndex ≥ pages1.length then pages1.length - 1
      else s.currentPageIndex
    (loadPage idx1 { s with pages := pages1, currentPageIndex := idx1 }, none)
  else
    (s, some CanvasError.CannotDeleteLastPage)

/-- `previousPage()`: at index 0 only a warning; otherwise flush the
buffer into the active slot, decrement the index and `loadPage`. -/
def previousPage (s : CanvasState) : CanvasState × Option CanvasError :=
  if s.currentPageIndex > 0 then
    let pages1 := jsSet s.pages s.currentPageIndex (toDataURL s.buffer)
    let idx1 := s.currentPageIndex - 1
    (loadPage idx1 { s with pages := pages1, currentPageIndex := idx1 }, none)
  else
    (s, some CanvasError.AlreadyAtBoundary)

/-- `nextPage()`: at the last index only a warning; otherwise flush the
buffer into the active slot, increment the index and `loadPage`. -/
def nextPage (s : CanvasState) : CanvasState × Option CanvasError :=
  if s.currentPageIndex < s.pages.length - 1 then
    let pages1 := jsSet s.pages s.currentPageIndex (toDataURL s.buffer)
    let idx1 := s.currentPageIndex + 1
    (loadPage idx1 { s with pages := pages1, currentPageIndex := idx1 }, none)
  else
    (s, some CanvasError.AlreadyAtBoundary)

/-- The parsed content of an imported prescription file, restricted to
the field the modelled state uses.  `pages = none` models a file whose
`pages` field is absent (the form fields and the signature act on DOM
elements and the signature canvas, outside the modelled state). -/
structure PrescriptionData where
  pages : Option (List Snapshot)
  deriving DecidableEq

/-- `loadPrescription(file)` after the file has been read: `none` input
models a file `JSON.parse` rejects (caught, surfaced as an error toast);
otherwise `this.pages = data.pages || []`, the active index is reset to 0,
and page 0 is loaded only when the list is non-empty. -/
def loadPrescription (file : Option PrescriptionData) (s : CanvasState) :
    CanvasState × Option CanvasError :=
  match file with
  | none => (s, some CanvasError.ImportParseFailure)
  | some data =>
      let pages1 := data.pages.getD []
      let s1 := { s with pages := pages1, currentPageIndex := 0 }
      if pages1.length > 0 then (loadPage 0 s1, none) else (s1, none)

/-- The state right after the constructor and `initializeCanvas()`: one
page, the empty-string slot pushed first, then `saveState()` captures the
fresh (blank-rendering) canvas, then the white fill. -/
def initState : CanvasState :=
  saveState { buffer := blankBitmap, pages := [none], currentPageIndex := 0,
              history := [], historyStep := -1 }

/-- One public-interface operation.  A completed stroke mutates the buffer
to some bitmap `v` and then `stopDrawing` calls `saveState()`; this also
covers `clearCanvas`, `addText` and `addStamp`, which likewise mutate the
buffer and call `saveState()`. -/
inductive Op where
  | stroke (v : Bitmap)
  | undo
  | redo
  | addPage
  | deletePage
  | prevPage
  | nextPage
  | importFile (file : Option PrescriptionData)
  deriving DecidableEq

/-- Apply one operation, returning the new state and the error it
surfaced, if any. -/
def applyOp : Op → CanvasState → CanvasState × Option CanvasError
  | Op.stroke v, s => (saveState { s with buffer := v }, none)
  | Op.undo, s => undoLast s
  | Op.redo, s => redoLast s
  | Op.addPage, s => (addPage s, none)
  | Op.deletePage, s => deletePage s
  | Op.prevPage, s => previousPage s
  | Op.nextPage, s => nextPage s
  | Op.importFile f, s => loadPrescription f s

/-- Run a list of operations, ignoring surfaced errors. -/
def runOps (ops : List Op) (s : CanvasState) : CanvasState :=
  ops.foldl (fun t op => (applyOp op t).1) s

/-- Run a list of operations, also recording whether every single
operation succeeded (surfaced no error). -/
def runChecked (ops : List Op) (p : CanvasState × Bool) : CanvasState × Bool :=
  ops.foldl (fun q op => ((applyOp op q.1).1, q.2 && (applyOp op q.1).2.isNone)) p

/-- States reachable from startup through the public interface. -/
inductive Reachable : CanvasState → Prop
  | init : Reachable initState
  | step (op : Op) {s : CanvasState} : Reachable s → Reachable (applyOp op s).1

/-- An operation whose document import, if any, supplies at least one
page. -/
def keepsPages : Op → Prop
  | Op.importFile (some d) => 1 ≤ (d.pages.getD []).length
  | _ => True

/-- States reachable from startup when every document import supplies a
non-empty page list. -/
inductive PagesReachable : CanvasState → Prop
  | init : PagesReachable initState
  | step (op : Op) {s : CanvasState} : PagesReachable s → keepsPages op →
      PagesReachable (applyOp op s).1

/-- The canvas state of the single-page stroke scenario of the spec's
testable properties: the snapshots pushed so far are `H` (oldest first,
starting with the startup blank snapshot) and the cursor sits at `k`.
Undo and redo keep the single page slot in sync with the buffer. -/
def chainState (H : List Bitmap) (k : Nat) : CanvasState :=
  { buffer := H.getD k blankBitmap,
    pages := [some (H.getD k blankBitmap)],
    currentPageIndex := 0,
    history := H.map some,
    historyStep := (k : Int) }

/-! ## Tool rendering (C8) -/

/-- The `globalCompositeOperation` values the code uses. -/
inductive CompositeOp where
  | sourceOver
  | destinationOut
  deriving DecidableEq

/-- The four drawing tools. -/
inductive Tool where
  | pen
  | brush
  | highlighter
  | eraser
  deriving DecidableEq

/-- The fields of the 2d context that `setDrawingProperties` assigns.
Sizes and opacities are rationals (the JavaScript literals 0.8, 0.3, 1.5
and the products with an integer size are all exact in doubles). -/
structure DrawingContext where
  globalCompositeOperation : CompositeOp
  globalAlpha : ℚ
  strokeStyle : String
  lineWidth : ℚ
  lineCap : String
  lineJoin : String
  deriving DecidableEq

/-- `setDrawingProperties(context)`: the per-tool switch, followed by the
unconditional round cap/join assignments.  The eraser case leaves
`strokeStyle` untouched. -/
def setDrawingProperties (currentTool : Tool) (currentColor : String)
    (currentSize : ℚ) (c : DrawingContext) : DrawingContext :=
  let c1 : DrawingContext :=
    match currentTool with
    | Tool.pen =>
        { c with globalCompositeOperation := CompositeOp.sourceOver,
                 globalAlpha := 1,
                 strokeStyle := currentColor,
                 lineWidth := currentSize }
    | Tool.brush =>
        { c with globalCompositeOperation := CompositeOp.sourceOver,
                 globalAlpha := (0.8 : ℚ),
                 strokeStyle := currentColor,
                 lineWidth := currentSize * (1.5 : ℚ) }
    | Tool.highlighter =>
        { c with globalCompositeOperation := CompositeOp.sourceOver,
                 globalAlpha := (0.3 : ℚ),
                 strokeStyle := currentColor,
                 lineWidth := currentSize * 3 }
    | Tool.eraser =>
        { c with globalCompositeOperation := CompositeOp.destinationOut,
                 globalAlpha := 1,
                 lineWidth := currentSize * 2 }
  { c1 with lineCap := "round", lineJoin := "round" }

/-- The fixed tool table of the specification, stated from its words:
composition mode, opacity, width multiplier. -/
def specToolTable : Tool → CompositeOp × ℚ × ℚ
  | Tool.pen => (CompositeOp.sourceOver, 1, 1)
  | Tool.brush => (CompositeOp.sourceOver, (0.8 : ℚ), (1.5 : ℚ))
  | Tool.highlighter => (CompositeOp.sourceOver, (0.3 : ℚ), 3)
  | Tool.eraser => (CompositeOp.destinationOut, 1, 2)

/-! ## Helper lemmas -/

theorem jsSet_length {l : List Snapshot} {i : Nat} (v : Snapshot)
    (h : i < l.length) : (jsSet l i v).length = l.length := by
  unfold jsSet
  rw [if_neg (by omega)]
  exact l.length_set i v

theorem jsSet_getD_eq {l : List Snapshot} {i : Nat} (v : Snapshot)
    (h : i < l.length) : (jsSet l i v).getD i none = v := by
  unfold jsSet
  rw [if_neg (by omega), List.getD_eq_getElem _ _ (by simpa using h)]
  simp [List.getElem_set]

theorem jsSet_getD_ne {l : List Snapshot} {i : Nat} (v : Snapshot)
    (h : i < l.length) {j : Nat} (hj : j ≠ i) :
    (jsSet l i v).getD j none = l.getD j none := by
  unfold jsSet
  rw [if_neg (by omega)]
  rcases Nat.lt_or_ge j l.length with hlt | hge
  · rw [List.getD_eq_getElem _ _ (by simpa using hlt),
      List.getD_eq_getElem _ _ hlt]
    simp [List.getElem_set, hj.symm]
  · rw [List.getD_eq_default _ _ (by simpa using hge),
      List.getD_eq_default _ _ hge]

theorem jsSet_getD_self {l : List Snapshot} {i : Nat} (h : i < l.length) :
    jsSet l i (l.getD i none) = l := by
  unfold jsSet
  rw [if_neg (by omega)]
  apply List.ext_getElem (by simp)
  intro j h1 h2
  rw [List.getElem_set]
  split
  · next heq => subst heq; rw [List.getD_eq_getElem _ _ h]
  · rfl

theorem loadCanvasState_history (d : Snapshot) (s : CanvasState) :
    (loadCanvasState d s).history = s.history := by
  cases d <;> rfl

theorem loadCanvasState_historyStep (d : Snapshot) (s : CanvasState) :
    (loadCanvasState d s).historyStep = s.historyStep := by
  cases d <;> rfl

theorem loadPage_history (i : Nat) (s : CanvasState) :
    (loadPage i s).history = s.history := by
  unfold loadPage
  cases s.pages.getD i none
  · rfl
  · rw [loadCanvasState_history]

/-! ## Claim theorems -/

/-- C8: for every stroke, the drawing parameters applied to the context
are exactly those of the fixed tool table: pen is normal composition,
opacity 1.0, 1× the selected width; brush is normal, 0.8, 1.5×;
highlighter is normal, 0.3, 3×; eraser is the erase composition
(`destination-out`), 1.0, 2×. -/
theorem setDrawingProperties_matches_spec_table (tool : Tool)
    (color : String) (size : ℚ) (c : DrawingContext) :
    (setDrawingProperties tool color size c).globalCompositeOperation
        = (specToolTable tool).1
    ∧ (setDrawingProperties tool color size c).globalAlpha
        = (specToolTable tool).2.1
    ∧ (setDrawingProperties tool color size c).lineWidth
        = size * (specToolTable tool).2.2 := by
  cases tool <;>
    refine ⟨rfl, rfl, ?_⟩ <;> simp [setDrawingProperties, specToolTable]

/-- C10: importing a parsed file whose `pages` field is absent or an
empty list replaces the page collection by the empty list, resets the
active index to 0, creates no blank page, leaves the buffer untouched,
and surfaces no `ImportParseFailure`. -/
theorem loadPrescription_empty_pages (s : CanvasState) :
    loadPrescription (some { pages := none }) s
        = ({ s with pages := [], currentPageIndex := 0 }, none)
    ∧ loadPrescription (some { pages := some [] }) s
        = ({ s with pages := [], currentPageIndex := 0 }, none) :=
  ⟨rfl, rfl⟩

/-- C1: when the cursor is not at the last history index, a push keeps
exactly the entries up to and including the cursor, discards the rest,
appends the new snapshot, and leaves the cursor at the new last index;
moreover redo fails (and changes nothing) immediately after the push. -/
theorem push_discards_redo_branch (s : CanvasState)
    (h0 : 0 ≤ s.historyStep) (h50 : s.history.length ≤ 50)
    (hmid : s.historyStep < (s.history.length : Int) - 1) :
    (saveState s).history
        = s.history.take (s.historyStep.toNat + 1) ++ [toDataURL s.buffer]
    ∧ (saveState s).historyStep = s.historyStep + 1
    ∧ (saveState s).historyStep = ((saveState s).history.length : Int) - 1
    ∧ redoLast (saveState s) = (saveState s, some CanvasError.NothingToRedo) := by
  have hlt : s.historyStep + 1 < (s.history.length : Int) := by omega
  have htn : (s.historyStep + 1).toNat = s.historyStep.toNat + 1 := by omega
  have htk : (s.history.take (s.historyStep + 1).toNat).length
      = s.historyStep.toNat + 1 := by
    rw [List.length_take]
    omega
  have hnof : ¬ ((if s.historyStep + 1 < (s.history.length : Int)
        then s.history.take (s.historyStep + 1).toNat else s.history)
      ++ [toDataURL s.buffer]).length > 50 := by
    rw [if_pos hlt, List.length_append, htk]
    simp only [List.length_cons, List.length_nil]
    omega
  have hsave : saveState s =
      { s with history := s.history.take (s.historyStep.toNat + 1)
                  ++ [toDataURL s.buffer],
               historyStep := s.historyStep + 1,
               pages := jsSet s.pages s.currentPageIndex (toDataURL s.buffer) } := by
    unfold saveState
    rw [if_neg hnof, if_pos hlt, htn]
  refine ⟨by rw [hsave], by rw [hsave], ?_, ?_⟩
  · rw [hsave]
    simp only [List.length_append, List.length_take, List.length_cons,
      List.length_nil]
    omega
  · have hlen : (((saveState s).history.length : Int)) - 1
        = (saveState s).historyStep := by
      rw [hsave]
      simp only [List.length_append, List.length_take, List.length_cons,
        List.length_nil]
      omega
    unfold redoLast
    rw [if_neg (by omega)]

/-- Witness for C1 on the state after two strokes and one undo (cursor 1,
history length 3). -/
theorem push_discards_redo_branch_witness :
    0 ≤ (runOps [Op.stroke 1, Op.stroke 2, Op.undo] initState).historyStep
    ∧ redoLast (saveState (runOps [Op.stroke 1, Op.stroke 2, Op.undo] initState))
        = (saveState (runOps [Op.stroke 1, Op.stroke 2, Op.undo] initState),
           some CanvasError.NothingToRedo) :=
  ⟨by decide,
   (push_discards_redo_branch (runOps [Op.stroke 1, Op.stroke 2, Op.undo] initState)
      (by decide) (by decide) (by decide)).2.2.2⟩

/-- C4: undo fails with `NothingToUndo` exactly when the cursor is 0 and
otherwise decrements the cursor and loads the snapshot at the new cursor
position; redo fails with `NothingToRedo` exactly when the cursor is at
the last index and otherwise increments the cursor and loads that
snapshot; both failures leave the state (history and cursor included)
unchanged. -/
theorem undo_redo_error_contract (s : CanvasState)
    (h0 : 0 ≤ s.historyStep)
    (h1 : s.historyStep ≤ (s.history.length : Int) - 1) :
    ((undoLast s).2 = some CanvasError.NothingToUndo ↔ s.historyStep = 0)
    ∧ (s.historyStep = 0 → undoLast s = (s, some CanvasError.NothingToUndo))
    ∧ (s.historyStep ≠ 0 →
        (undoLast s).2 = none
        ∧ (undoLast s).1.historyStep = s.historyStep - 1
        ∧ (undoLast s).1.history = s.history
        ∧ ∀ b : Bitmap, historyAt s.history (s.historyStep - 1) = some b →
            (undoLast s).1.buffer = b)
    ∧ ((redoLast s).2 = some CanvasError.NothingToRedo
        ↔ s.historyStep = (s.history.length : Int) - 1)
    ∧ (s.historyStep = (s.history.length : Int) - 1 →
        redoLast s = (s, some CanvasError.NothingToRedo))
    ∧ (s.historyStep ≠ (s.history.length : Int) - 1 →
        (redoLast s).2 = none
        ∧ (redoLast s).1.historyStep = s.historyStep + 1
        ∧ (redoLast s).1.history = s.history
        ∧ ∀ b : Bitmap, historyAt s.history (s.historyStep + 1) = some b →
            (redoLast s).1.buffer = b) := by
  have hu : ∀ h : 0 < s.historyStep, undoLast s
      = (loadCanvasState (historyAt s.history (s.historyStep - 1))
          { s with historyStep := s.historyStep - 1 }, none) := by
    intro h
    unfold undoLast
    rw [if_pos h]
  have hr : ∀ h : s.historyStep < (s.history.length : Int) - 1, redoLast s
      = (loadCanvasState (historyAt s.history (s.historyStep + 1))
          { s with historyStep := s.historyStep + 1 }, none) := by
    intro h
    unfold redoLast
    rw [if_pos h]
  refine ⟨?_, ?_, ?_, ?_, ?_, ?_⟩
  · constructor
    · intro hc
      by_contra hne
      rw [hu (by omega)] at hc
      exact Option.noConfusion hc
    · intro hc
      unfold undoLast
      rw [if_neg (by omega)]
  · intro hc
    unfold undoLast
    rw [if_neg (by omega)]
  · intro hc
    rw [hu (by omega)]
    refine ⟨rfl, ?_, ?_, ?_⟩
    · rw [loadCanvasState_historyStep]
    · rw [loadCanvasState_history]
    · intro b hb
      rw [hb]
      rfl
  · constructor
    · intro hc
      by_contra hne
      rw [hr (by omega)] at hc
      exact Option.noConfusion hc
    · intro hc
      unfold redoLast
      rw [if_neg (by omega)]
  · intro hc
    unfold redoLast
    rw [if_neg (by omega)]
  · intro hc
    rw [hr (by omega)]
    refine ⟨rfl, ?_, ?_, ?_⟩
    · rw [loadCanvasState_historyStep]
    · rw [loadCanvasState_history]
    · intro b hb
      rw [hb]
      rfl

theorem undoLast_fst_history (s : CanvasState) :
    (undoLast s).1.history = s.history := by
  unfold undoLast
  split
  · exact loadCanvasState_history _ _
  · rfl

theorem redoLast_fst_history (s : CanvasState) :
    (redoLast s).1.history = s.history := by
  unfold redoLast
  split
  · exact loadCanvasState_history _ _
  · rfl

theorem deletePage_fst_history (s : CanvasState) :
    (deletePage s).1.history = s.history := by
  unfold deletePage
  split
  · exact loadPage_history _ _
  · rfl

theorem previousPage_fst_history (s : CanvasState) :
    (previousPage s).1.history = s.history := by
  unfold previousPage
  split
  · exact loadPage_history _ _
  · rfl

theorem nextPage_fst_history (s : CanvasState) :
    (nextPage s).1.history = s.history := by
  unfold nextPage
  split
  · exact loadPage_history _ _
  · rfl

theorem loadPrescription_fst_history (f : Option PrescriptionData)
    (s : CanvasState) : (loadPrescription f s).1.history = s.history := by
  unfold loadPrescription
  split
  · rfl
  · dsimp only
    split
    · exact loadPage_history _ _
    · rfl

theorem saveState_history_le (s : CanvasState) (h : s.history.length ≤ 50) :
    (saveState s).history.length ≤ 50 := by
  have htk : (if s.historyStep + 1 < (s.history.length : Int)
      then s.history.take (s.historyStep + 1).toNat else s.history).length
      ≤ s.history.length := by
    split
    · rw [List.length_take]
      omega
    · exact Nat.le_refl _
  by_cases hov : ((if s.historyStep + 1 < (s.history.length : Int)
      then s.history.take (s.historyStep + 1).toNat else s.history)
      ++ [toDataURL s.buffer]).length > 50
  · simp only [saveState]
    rw [if_pos hov]
    simp only [List.length_tail, List.length_append, List.length_cons,
      List.length_nil] at htk hov ⊢
    omega
  · simp only [saveState]
    rw [if_neg hov]
    simp only [List.length_append, List.length_cons, List.length_nil] at hov ⊢
    omega

/-- History length is bounded by 50 in every reachable state. -/
theorem reachable_history_le (s : CanvasState) (h : Reachable s) :
    s.history.length ≤ 50 := by
  induction h with
  | init => decide
  | step op h ih =>
      cases op with
      | stroke v => exact saveState_history_le _ ih
      | undo => rw [show (applyOp Op.undo _).1 = (undoLast _).1 from rfl,
          undoLast_fst_history]; exact ih
      | redo => rw [show (applyOp Op.redo _).1 = (redoLast _).1 from rfl,
          redoLast_fst_history]; exact ih
      | addPage => exact saveState_history_le _ ih
      | deletePage => rw [show (applyOp Op.deletePage _).1 = (deletePage _).1 from rfl,
          deletePage_fst_history]; exact ih
      | prevPage => rw [show (applyOp Op.prevPage _).1 = (previousPage _).1 from rfl,
          previousPage_fst_history]; exact ih
      | nextPage => rw [show (applyOp Op.nextPage _).1 = (nextPage _).1 from rfl,
          nextPage_fst_history]; exact ih
      | importFile f => rw [show (applyOp (Op.importFile f) _).1
          = (loadPrescription f _).1 from rfl,
          loadPrescription_fst_history]; exact ih

/-- `saveState` in the overflow situation (full history, cursor at the
end): the oldest entry is shifted out and the step decremented. -/
theorem saveState_overflow (s : CanvasState)
    (hlen : s.history.length = 50) (hstep : s.historyStep = 49) :
    saveState s = { s with
      history := (s.history ++ [toDataURL s.buffer]).tail,
      historyStep := 49,
      pages := jsSet s.pages s.currentPageIndex (toDataURL s.buffer) } := by
  simp only [saveState]
  rw [if_neg (show ¬ s.historyStep + 1 < (s.history.length : Int) by omega)]
  rw [if_pos (show (s.history ++ [toDataURL s.buffer]).length > 50 by
    rw [List.length_append, hlen]
    simp)]
  rw [hstep]
  norm_num

theorem runOps_cons (op : Op) (ops : List Op) (s : CanvasState) :
    runOps (op :: ops) s = runOps ops (applyOp op s).1 := rfl

theorem reachable_runOps (ops : List Op) (s : CanvasState) (h : Reachable s) :
    Reachable (runOps ops s) := by
  induction ops generalizing s with
  | nil => exact h
  | cons op ops ih => exact ih _ (Reachable.step op h)

/-- C2: in every reachable state the history has at most 50 entries; a
push from a full history with the cursor at the end evicts the oldest
entry and decrements the cursor so it still addresses the snapshot just
pushed, and the first undo immediately after such an eviction
succeeds. -/
theorem history_bounded_and_overflow_evicts (s : CanvasState)
    (h : Reachable s) :
    s.history.length ≤ 50
    ∧ (s.history.length = 50 → s.historyStep = 49 →
        (saveState s).history = s.history.tail ++ [toDataURL s.buffer]
        ∧ (saveState s).history.length = 50
        ∧ (saveState s).historyStep = 49
        ∧ historyAt (saveState s).history (saveState s).historyStep
            = toDataURL s.buffer
        ∧ (undoLast (saveState s)).2 = none) := by
  refine ⟨reachable_history_le s h, ?_⟩
  intro hlen hstep
  have hne : s.history ≠ [] := by
    intro hn
    rw [hn] at hlen
    cases hlen
  have hsv := saveState_overflow s hlen hstep
  have htail : (s.history ++ [toDataURL s.buffer]).tail
      = s.history.tail ++ [toDataURL s.buffer] :=
    List.tail_append_singleton_of_ne_nil hne
  have htlen : s.history.tail.length = 49 := by
    rw [List.length_tail, hlen]
  refine ⟨?_, ?_, ?_, ?_, ?_⟩
  · rw [hsv, htail]
  · rw [hsv, htail, List.length_append, htlen]
    rfl
  · rw [hsv]
  · rw [hsv, htail]
    unfold historyAt
    rw [if_pos (by norm_num)]
    rw [show ((49 : Int)).toNat = 49 from rfl]
    rw [List.getD_append_right _ _ _ _ (by omega)]
    rw [htlen]
    rfl
  · rw [hsv]
    unfold undoLast
    rw [if_pos (by norm_num)]

set_option maxRecDepth 40000 in
/-- Witness for C2 on the reachable state after 49 strokes (history
full at 50 entries including the startup snapshot, cursor 49). -/
theorem history_bounded_overflow_witness :
    (runOps (List.replicate 49 (Op.stroke 1)) initState).history.length = 50
    ∧ (runOps (List.replicate 49 (Op.stroke 1)) initState).historyStep = 49
    ∧ (undoLast (saveState (runOps (List.replicate 49 (Op.stroke 1)) initState))).2
        = none := by
  have h := history_bounded_and_overflow_evicts
    (runOps (List.replicate 49 (Op.stroke 1)) initState)
    (reachable_runOps _ _ Reachable.init)
  exact ⟨by decide, by decide, (h.2 (by decide) (by decide)).2.2.2.2⟩

theorem saveState_pages (s : CanvasState) :
    (saveState s).pages = jsSet s.pages s.currentPageIndex (toDataURL s.buffer) := by
  simp only [saveState]
  split <;> split <;> rfl

theorem saveState_currentPageIndex (s : CanvasState) :
    (saveState s).currentPageIndex = s.currentPageIndex := by
  simp only [saveState]
  split <;> split <;> rfl

theorem saveState_pages_inv (s : CanvasState)
    (h2 : s.currentPageIndex < s.pages.length) :
    (saveState s).pages.length = s.pages.length
    ∧ (saveState s).currentPageIndex = s.currentPageIndex := by
  rw [saveState_pages, saveState_currentPageIndex]
  exact ⟨jsSet_length _ h2, rfl⟩

theorem loadCanvasState_currentPageIndex (d : Snapshot) (s : CanvasState) :
    (loadCanvasState d s).currentPageIndex = s.currentPageIndex := by
  cases d <;> rfl

theorem loadCanvasState_pages_length (d : Snapshot) (s : CanvasState)
    (h : s.currentPageIndex < s.pages.length) :
    (loadCanvasState d s).pages.length = s.pages.length := by
  cases d
  · rfl
  · exact jsSet_length _ h

theorem loadPage_pages_length (i : Nat) (s : CanvasState)
    (hi : i < s.pages.length) (hc : s.currentPageIndex < s.pages.length) :
    (loadPage i s).pages.length = s.pages.length := by
  unfold loadPage
  split
  · exact loadCanvasState_pages_length _ _ hc
  · exact jsSet_length _ hi

theorem loadPage_currentPageIndex (i : Nat) (s : CanvasState) :
    (loadPage i s).currentPageIndex = s.currentPageIndex := by
  unfold loadPage
  split
  · exact loadCanvasState_currentPageIndex _ _
  · rfl

theorem undoLast_pages_inv (s : CanvasState)
    (h2 : s.currentPageIndex < s.pages.length) :
    ((undoLast s).1).pages.length = s.pages.length
    ∧ ((undoLast s).1).currentPageIndex = s.currentPageIndex := by
  unfold undoLast
  split
  · exact ⟨loadCanvasState_pages_length _ _ h2, loadCanvasState_currentPageIndex _ _⟩
  · exact ⟨rfl, rfl⟩

theorem redoLast_pages_inv (s : CanvasState)
    (h2 : s.currentPageIndex < s.pages.length) :
    ((redoLast s).1).pages.length = s.pages.length
    ∧ ((redoLast s).1).currentPageIndex = s.currentPageIndex := by
  unfold redoLast
  split
  · exact ⟨loadCanvasState_pages_length _ _ h2, loadCanvasState_currentPageIndex _ _⟩
  · exact ⟨rfl, rfl⟩

theorem addPage_pages_inv (s : CanvasState) :
    1 ≤ (addPage s).pages.length
    ∧ (addPage s).currentPageIndex < (addPage s).pages.length := by
  unfold addPage
  dsimp only
  have h2 : (s.pages ++ [none]).length - 1 < (s.pages ++ [none]).length := by
    rw [List.length_append]
    simp
  have h3 := saveState_pages_inv
    { s with
      pages := s.pages ++ [none],
      currentPageIndex := (s.pages ++ [none]).length - 1,
      buffer := blankBitmap }
    h2
  rw [h3.1, h3.2]
  dsimp only
  refine ⟨?_, h2⟩
  rw [List.length_append]
  simp

theorem deletePage_pages_inv (s : CanvasState)
    (h2 : s.currentPageIndex < s.pages.length) :
    1 ≤ ((deletePage s).1).pages.length
    ∧ ((deletePage s).1).currentPageIndex < ((deletePage s).1).pages.length := by
  unfold deletePage
  split
  · next hgt =>
      dsimp only
      have hlen1 : (s.pages.eraseIdx s.currentPageIndex).length + 1
          = s.pages.length := List.length_eraseIdx_add_one h2
      have hidx1 : (if s.currentPageIndex ≥ (s.pages.eraseIdx s.currentPageIndex).length
            then (s.pages.eraseIdx s.currentPageIndex).length - 1
            else s.currentPageIndex) < (s.pages.eraseIdx s.currentPageIndex).length := by
        split <;> omega
      rw [loadPage_pages_length _ _ hidx1 hidx1, loadPage_currentPageIndex]
      exact ⟨(by omega : 1 ≤ (s.pages.eraseIdx s.currentPageIndex).length), hidx1⟩
  · next hgt => exact ⟨(by omega : 1 ≤ s.pages.length), h2⟩

theorem previousPage_pages_inv (s : CanvasState)
    (h2 : s.currentPageIndex < s.pages.length) :
    ((previousPage s).1).pages.length = s.pages.length
    ∧ ((previousPage s).1).currentPageIndex < s.pages.length := by
  unfold previousPage
  split
  · next hgt =>
      dsimp only
      have hfl : (jsSet s.pages s.currentPageIndex (toDataURL s.buffer)).length
          = s.pages.length := jsSet_length _ h2
      have hi1 : s.currentPageIndex - 1
          < (jsSet s.pages s.currentPageIndex (toDataURL s.buffer)).length := by
        omega
      rw [loadPage_pages_length _ _ hi1 hi1, loadPage_currentPageIndex]
      exact ⟨hfl, (by omega : s.currentPageIndex - 1 < s.pages.length)⟩
  · exact ⟨rfl, h2⟩

theorem nextPage_pages_inv (s : CanvasState)
    (h2 : s.currentPageIndex < s.pages.length) :
    ((nextPage s).1).pages.length = s.pages.length
    ∧ ((nextPage s).1).currentPageIndex < s.pages.length := by
  unfold nextPage
  split
  · next hgt =>
      dsimp only
      have hfl : (jsSet s.pages s.currentPageIndex (toDataURL s.buffer)).length
          = s.pages.length := jsSet_length _ h2
      have hi1 : s.currentPageIndex + 1
          < (jsSet s.pages s.currentPageIndex (toDataURL s.buffer)).length := by
        omega
      rw [loadPage_pages_length _ _ hi1 hi1, loadPage_currentPageIndex]
      exact ⟨hfl, (by omega : s.currentPageIndex + 1 < s.pages.length)⟩
  · exact ⟨rfl, h2⟩

theorem loadPrescription_pages_inv (f : Option PrescriptionData)
    (s : CanvasState) (hk : keepsPages (Op.importFile f))
    (h1 : 1 ≤ s.pages.length) (h2 : s.currentPageIndex < s.pages.length) :
    1 ≤ ((loadPrescription f s).1).pages.length
    ∧ ((loadPrescription f s).1).currentPageIndex
        < ((loadPrescription f s).1).pages.length := by
  unfold loadPrescription
  cases f with
  | none => exact ⟨h1, h2⟩
  | some d =>
      dsimp only
      have hk1 : 1 ≤ (d.pages.getD []).length := hk
      rw [if_pos (by omega)]
      have h0 : (0 : Nat) < (d.pages.getD []).length := by omega
      rw [loadPage_pages_length _ _ h0 h0, loadPage_currentPageIndex]
      exact ⟨hk1, h0⟩

theorem applyOp_pages_inv (op : Op) (s : CanvasState) (hk : keepsPages op)
    (h1 : 1 ≤ s.pages.length) (h2 : s.currentPageIndex < s.pages.length) :
    1 ≤ ((applyOp op s).1).pages.length
    ∧ ((applyOp op s).1).currentPageIndex < ((applyOp op s).1).pages.length := by
  cases op with
  | stroke v =>
      have h3 := saveState_pages_inv { s with buffer := v } h2
      constructor
      · rw [show (applyOp (Op.stroke v) s).1
          = saveState { s with buffer := v } from rfl, h3.1]
        exact h1
      · rw [show (applyOp (Op.stroke v) s).1
          = saveState { s with buffer := v } from rfl, h3.1, h3.2]
        exact h2
  | undo =>
      have h3 := undoLast_pages_inv s h2
      constructor
      · rw [show (applyOp Op.undo s).1 = (undoLast s).1 from rfl, h3.1]
        exact h1
      · rw [show (applyOp Op.undo s).1 = (undoLast s).1 from rfl, h3.1, h3.2]
        exact h2
  | redo =>
      have h3 := redoLast_pages_inv s h2
      constructor
      · rw [show (applyOp Op.redo s).1 = (redoLast s).1 from rfl, h3.1]
        exact h1
      · rw [show (applyOp Op.redo s).1 = (redoLast s).1 from rfl, h3.1, h3.2]
        exact h2
  | addPage => exact addPage_pages_inv s
  | deletePage => exact deletePage_pages_inv s h2
  | prevPage =>
      have h3 := previousPage_pages_inv s h2
      constructor
      · rw [show (applyOp Op.prevPage s).1 = (previousPage s).1 from rfl, h3.1]
        exact h1
      · rw [show (applyOp Op.prevPage s).1 = (previousPage s).1 from rfl, h3.1]
        exact h3.2
  | nextPage =>
      have h3 := nextPage_pages_inv s h2
      constructor
      · rw [show (applyOp Op.nextPage s).1 = (nextPage s).1 from rfl, h3.1]
        exact h1
      · rw [show (applyOp Op.nextPage s).1 = (nextPage s).1 from rfl, h3.1]
        exact h3.2
  | importFile f => exact loadPrescription_pages_inv f s hk h1 h2

/-- C5 (amended): in every state reachable through the public interface
in which each document import supplies at least one page, the page
collection has length ≥ 1 and the active page index is a valid index
(0 ≤ activeIndex ≤ length − 1). -/
theorem pages_invariant (s : CanvasState) (h : PagesReachable s) :
    1 ≤ s.pages.length ∧ s.currentPageIndex < s.pages.length := by
  induction h with
  | init => decide
  | step op h hk ih => exact applyOp_pages_inv op _ hk ih.1 ih.2

theorem loadCanvasState_some (b : Bitmap) (s : CanvasState) :
    loadCanvasState (some b) s
      = { s with buffer := b,
                 pages := jsSet s.pages s.currentPageIndex (some b) } := rfl

/-- `loadPage` on a slot holding a saved snapshot, called the way the
code calls it (with the active index): the buffer is replaced and the
page list is unchanged (the slot is rewritten with its own value). -/
theorem loadPage_saved (i : Nat) (s : CanvasState) (b : Bitmap)
    (hb : s.pages.getD i none = some b) (hi : i < s.pages.length)
    (hc : s.currentPageIndex = i) :
    loadPage i s = { s with buffer := b } := by
  unfold loadPage
  rw [hb]
  dsimp only
  rw [loadCanvasState_some, hc, ← hb, jsSet_getD_self hi]

/-- `loadPage` on an out-of-range or empty-string slot: the buffer is
white-filled and the blank data URL saved into the slot. -/
theorem loadPage_unsaved (i : Nat) (s : CanvasState)
    (hb : s.pages.getD i none = none) :
    loadPage i s = { s with
      buffer := blankBitmap,
      pages := jsSet s.pages i (toDataURL blankBitmap) } := by
  unfold loadPage
  rw [hb]

theorem deletePage_pos (s : CanvasState) (h : s.pages.length > 1) :
    deletePage s = (loadPage
      (if s.currentPageIndex ≥ (s.pages.eraseIdx s.currentPageIndex).length
        then (s.pages.eraseIdx s.currentPageIndex).length - 1
        else s.currentPageIndex)
      { s with pages := s.pages.eraseIdx s.currentPageIndex,
               currentPageIndex :=
                 if s.currentPageIndex ≥ (s.pages.eraseIdx s.currentPageIndex).length
                   then (s.pages.eraseIdx s.currentPageIndex).length - 1
                   else s.currentPageIndex }, none) := by
  unfold deletePage
  rw [if_pos h]

theorem previousPage_pos (s : CanvasState) (h : s.currentPageIndex > 0) :
    previousPage s = (loadPage (s.currentPageIndex - 1)
      { s with pages := jsSet s.pages s.currentPageIndex (toDataURL s.buffer),
               currentPageIndex := s.currentPageIndex - 1 }, none) := by
  unfold previousPage
  rw [if_pos h]

theorem nextPage_pos (s : CanvasState) (h : s.currentPageIndex < s.pages.length - 1) :
    nextPage s = (loadPage (s.currentPageIndex + 1)
      { s with pages := jsSet s.pages s.currentPageIndex (toDataURL s.buffer),
               currentPageIndex := s.currentPageIndex + 1 }, none) := by
  unfold nextPage
  rw [if_pos h]

theorem undoLast_pos (s : CanvasState) (h : 0 < s.historyStep) :
    undoLast s = (loadCanvasState (historyAt s.history (s.historyStep - 1))
      { s with historyStep := s.historyStep - 1 }, none) := by
  unfold undoLast
  rw [if_pos h]

theorem redoLast_lt (s : CanvasState)
    (h : s.historyStep < (s.history.length : Int) - 1) :
    redoLast s = (loadCanvasState (historyAt s.history (s.historyStep + 1))
      { s with historyStep := s.historyStep + 1 }, none) := by
  unfold redoLast
  rw [if_pos h]

/-- C6: with only one page, `deletePage` always fails with
`CannotDeleteLastPage` and changes nothing; with more than one page it
removes the active entry, clamps the active index into
`[0, newLength − 1]` (that is, to `min index (newLength − 1)`), and loads
the new active page's snapshot into the buffer (the buffer's data URL
afterwards equals the active slot).  Page slots are assumed to hold saved
snapshots (non-empty data URLs). -/
theorem deletePage_contract (s : CanvasState)
    (hidx : s.currentPageIndex < s.pages.length)
    (hsaved : ∀ p ∈ s.pages, p.isSome) :
    (s.pages.length = 1 → deletePage s = (s, some CanvasError.CannotDeleteLastPage))
    ∧ (1 < s.pages.length →
        (deletePage s).2 = none
        ∧ (deletePage s).1.pages = s.pages.eraseIdx s.currentPageIndex
        ∧ (deletePage s).1.currentPageIndex
            = min s.currentPageIndex (s.pages.length - 2)
        ∧ toDataURL ((deletePage s).1.buffer)
            = (deletePage s).1.pages.getD ((deletePage s).1.currentPageIndex) none) := by
  constructor
  · intro h1
    unfold deletePage
    rw [if_neg (by omega)]
  · intro hgt
    have hlen1 : (s.pages.eraseIdx s.currentPageIndex).length + 1
        = s.pages.length := List.length_eraseIdx_add_one hidx
    have hidx1 : (if s.currentPageIndex ≥ (s.pages.eraseIdx s.currentPageIndex).length
          then (s.pages.eraseIdx s.currentPageIndex).length - 1
          else s.currentPageIndex) < (s.pages.eraseIdx s.currentPageIndex).length := by
      split <;> omega
    obtain ⟨b, hb⟩ : ∃ b : Bitmap,
        (s.pages.eraseIdx s.currentPageIndex).getD
          (if s.currentPageIndex ≥ (s.pages.eraseIdx s.currentPageIndex).length
            then (s.pages.eraseIdx s.currentPageIndex).length - 1
            else s.currentPageIndex) none = some b := by
      apply Option.isSome_iff_exists.mp
      rw [List.getD_eq_getElem _ _ hidx1]
      exact hsaved _ (List.eraseIdx_subset _ _ (List.getElem_mem _))
    rw [deletePage_pos s hgt,
      loadPage_saved _ _ b hb hidx1 rfl]
    refine ⟨rfl, rfl, ?_, ?_⟩
    · dsimp only
      split <;> omega
    · dsimp only
      rw [hb]
      rfl

/-- Witness for C6 on a two-page state (a second page added after one
stroke, both slots saved): the delete succeeds and one page remains. -/
theorem deletePage_contract_witness :
    (runOps [Op.stroke 1, Op.addPage] initState).currentPageIndex
        < (runOps [Op.stroke 1, Op.addPage] initState).pages.length
    ∧ (deletePage (runOps [Op.stroke 1, Op.addPage] initState)).1.pages
        = (runOps [Op.stroke 1, Op.addPage] initState).pages.eraseIdx
            (runOps [Op.stroke 1, Op.addPage] initState).currentPageIndex := by
  have h := deletePage_contract (runOps [Op.stroke 1, Op.addPage] initState)
    (by decide) (by decide)
  exact ⟨by decide, (h.2 (by decide)).2.1⟩

/-- C7: page navigation.  At the boundaries (index 0 for previous, the
last index for next) the operation fails with `AlreadyAtBoundary` and
changes nothing.  Otherwise it stores the current buffer's data URL into
the current page slot, moves the index by one, leaves all other slots
unchanged, and loads the destination slot's snapshot into the buffer —
blank-filling the buffer (and saving the blank data URL into the slot)
when the destination slot has no stored content yet. -/
theorem page_navigation_contract (s : CanvasState)
    (hidx : s.currentPageIndex < s.pages.length) :
    (s.currentPageIndex = 0 →
        previousPage s = (s, some CanvasError.AlreadyAtBoundary))
    ∧ (s.currentPageIndex = s.pages.length - 1 →
        nextPage s = (s, some CanvasError.AlreadyAtBoundary))
    ∧ (0 < s.currentPageIndex →
        (previousPage s).2 = none
        ∧ (previousPage s).1.currentPageIndex = s.currentPageIndex - 1
        ∧ (previousPage s).1.pages.getD s.currentPageIndex none = toDataURL s.buffer
        ∧ (∀ j, j ≠ s.currentPageIndex → j ≠ s.currentPageIndex - 1 →
            (previousPage s).1.pages.getD j none = s.pages.getD j none)
        ∧ (∀ b : Bitmap, s.pages.getD (s.currentPageIndex - 1) none = some b →
            (previousPage s).1.buffer = b
            ∧ (previousPage s).1.pages.getD (s.currentPageIndex - 1) none = some b)
        ∧ (s.pages.getD (s.currentPageIndex - 1) none = none →
            (previousPage s).1.buffer = blankBitmap
            ∧ (previousPage s).1.pages.getD (s.currentPageIndex - 1) none
                = toDataURL blankBitmap))
    ∧ (s.currentPageIndex < s.pages.length - 1 →
        (nextPage s).2 = none
        ∧ (nextPage s).1.currentPageIndex = s.currentPageIndex + 1
        ∧ (nextPage s).1.pages.getD s.currentPageIndex none = toDataURL s.buffer
        ∧ (∀ j, j ≠ s.currentPageIndex → j ≠ s.currentPageIndex + 1 →
            (nextPage s).1.pages.getD j none = s.pages.getD j none)
        ∧ (∀ b : Bitmap, s.pages.getD (s.currentPageIndex + 1) none = some b →
            (nextPage s).1.buffer = b
            ∧ (nextPage s).1.pages.getD (s.currentPageIndex + 1) none = some b)
        ∧ (s.pages.getD (s.currentPageIndex + 1) none = none →
            (nextPage s).1.buffer = blankBitmap
            ∧ (nextPage s).1.pages.getD (s.currentPageIndex + 1) none
                = toDataURL blankBitmap)) := by
  refine ⟨?_, ?_, ?_, ?_⟩
  · intro h0
    unfold previousPage
    rw [if_neg (by omega)]
  · intro hlast
    unfold nextPage
    rw [if_neg (by omega)]
  · intro hpos
    have hflen : (jsSet s.pages s.currentPageIndex (toDataURL s.buffer)).length
        = s.pages.length := jsSet_length _ hidx
    have hi1 : s.currentPageIndex - 1
        < (jsSet s.pages s.currentPageIndex (toDataURL s.buffer)).length := by
      omega
    have hslotd : (jsSet s.pages s.currentPageIndex (toDataURL s.buffer)).getD
        (s.currentPageIndex - 1) none
        = s.pages.getD (s.currentPageIndex - 1) none :=
      jsSet_getD_ne _ hidx (by omega)
    rw [previousPage_pos s hpos]
    cases hslot : s.pages.getD (s.currentPageIndex - 1) none with
    | some b =>
        rw [loadPage_saved _ _ b (by rw [hslotd]; exact hslot) hi1 rfl]
        dsimp only
        refine ⟨rfl, rfl, ?_, ?_, ?_, ?_⟩
        · exact jsSet_getD_eq _ hidx
        · intro j hj1 hj2
          exact jsSet_getD_ne _ hidx hj1
        · intro c hc
          injection hc with hbc
          subst hbc
          exact ⟨rfl, by rw [hslotd]; exact hslot⟩
        · intro hcon
          exact Option.noConfusion hcon
    | none =>
        rw [loadPage_unsaved _ _ (by rw [hslotd]; exact hslot)]
        dsimp only
        refine ⟨rfl, rfl, ?_, ?_, ?_, ?_⟩
        · rw [jsSet_getD_ne _ hi1 (by omega)]
          exact jsSet_getD_eq _ hidx
        · intro j hj1 hj2
          rw [jsSet_getD_ne _ hi1 hj2, jsSet_getD_ne _ hidx hj1]
        · intro c hc
          exact Option.noConfusion hc
        · intro _
          exact ⟨rfl, jsSet_getD_eq _ hi1⟩
  · intro hlt
    have hflen : (jsSet s.pages s.currentPageIndex (toDataURL s.buffer)).length
        = s.pages.length := jsSet_length _ hidx
    have hi1 : s.currentPageIndex + 1
        < (jsSet s.pages s.currentPageIndex (toDataURL s.buffer)).length := by
      omega
    have hslotd : (jsSet s.pages s.currentPageIndex (toDataURL s.buffer)).getD
        (s.currentPageIndex + 1) none
        = s.pages.getD (s.currentPageIndex + 1) none :=
      jsSet_getD_ne _ hidx (by omega)
    rw [nextPage_pos s hlt]
    cases hslot : s.pages.getD (s.currentPageIndex + 1) none with
    | some b =>
        rw [loadPage_saved _ _ b (by rw [hslotd]; exact hslot) hi1 rfl]
        dsimp only
        refine ⟨rfl, rfl, ?_, ?_, ?_, ?_⟩
        · exact jsSet_getD_eq _ hidx
        · intro j hj1 hj2
          exact jsSet_getD_ne _ hidx hj1
        · intro c hc
          injection hc with hbc
          subst hbc
          exact ⟨rfl, by rw [hslotd]; exact hslot⟩
        · intro hcon
          exact Option.noConfusion hcon
    | none =>
        rw [loadPage_unsaved _ _ (by rw [hslotd]; exact hslot)]
        dsimp only
        refine ⟨rfl, rfl, ?_, ?_, ?_, ?_⟩
        · rw [jsSet_getD_ne _ hi1 (by omega)]
          exact jsSet_getD_eq _ hidx
        · intro j hj1 hj2
          rw [jsSet_getD_ne _ hi1 hj2, jsSet_getD_ne _ hidx hj1]
        · intro c hc
          exact Option.noConfusion hc
        · intro _
          exact ⟨rfl, jsSet_getD_eq _ hi1⟩

/-- Witness for C7 on a two-page state (active index 1): going to the
previous page succeeds and moves the index to 0. -/
theorem page_navigation_contract_witness :
    (runOps [Op.stroke 1, Op.addPage] initState).currentPageIndex
        < (runOps [Op.stroke 1, Op.addPage] initState).pages.length
    ∧ (previousPage (runOps [Op.stroke 1, Op.addPage] initState)).2 = none
    ∧ (previousPage (runOps [Op.stroke 1, Op.addPage] initState)).1.currentPageIndex
        = (runOps [Op.stroke 1, Op.addPage] initState).currentPageIndex - 1 := by
  have h := page_navigation_contract (runOps [Op.stroke 1, Op.addPage] initState)
    (by decide)
  exact ⟨by decide, (h.2.2.1 (by decide)).1, (h.2.2.1 (by decide)).2.1⟩

/-- C9: every successful undo or redo, besides restoring the snapshot
into the buffer, overwrites the active page's slot with that snapshot,
so afterwards the active slot holds exactly the buffer's data URL; all
other page slots are unchanged. -/
theorem undo_redo_update_active_slot (s : CanvasState)
    (hidx : s.currentPageIndex < s.pages.length) :
    (∀ b : Bitmap, 0 < s.historyStep →
        historyAt s.history (s.historyStep - 1) = some b →
        (undoLast s).2 = none
        ∧ (undoLast s).1.buffer = b
        ∧ (undoLast s).1.pages.getD s.currentPageIndex none = some b
        ∧ ∀ j, j ≠ s.currentPageIndex →
            (undoLast s).1.pages.getD j none = s.pages.getD j none)
    ∧ (∀ b : Bitmap, s.historyStep < (s.history.length : Int) - 1 →
        historyAt s.history (s.historyStep + 1) = some b →
        (redoLast s).2 = none
        ∧ (redoLast s).1.buffer = b
        ∧ (redoLast s).1.pages.getD s.currentPageIndex none = some b
        ∧ ∀ j, j ≠ s.currentPageIndex →
            (redoLast s).1.pages.getD j none = s.pages.getD j none) := by
  constructor
  · intro b hpos hb
    rw [undoLast_pos s hpos, hb, loadCanvasState_some]
    dsimp only
    refine ⟨rfl, rfl, jsSet_getD_eq _ hidx, ?_⟩
    intro j hj
    exact jsSet_getD_ne _ hidx hj
  · intro b hlt hb
    rw [redoLast_lt s hlt, hb, loadCanvasState_some]
    dsimp only
    refine ⟨rfl, rfl, jsSet_getD_eq _ hidx, ?_⟩
    intro j hj
    exact jsSet_getD_ne _ hidx hj

/-- Witness for C9 on the state after two strokes: undo succeeds, the
buffer shows the first stroke again, and the single page slot holds that
same snapshot. -/
theorem undo_redo_update_active_slot_witness :
    (undoLast (runOps [Op.stroke 7, Op.stroke 8] initState)).2 = none
    ∧ (undoLast (runOps [Op.stroke 7, Op.stroke 8] initState)).1.buffer = 7
    ∧ (undoLast (runOps [Op.stroke 7, Op.stroke 8] initState)).1.pages.getD
        (runOps [Op.stroke 7, Op.stroke 8] initState).currentPageIndex none
      = some 7 := by
  have h := (undo_redo_update_active_slot
    (runOps [Op.stroke 7, Op.stroke 8] initState) (by decide)).1
    7 (by decide) (by decide)
  exact ⟨h.1, h.2.1, h.2.2.1⟩

theorem initState_eq_chainState : initState = chainState [blankBitmap] 0 := rfl

theorem historyAt_map_some (H : List Bitmap) (j : Nat) (hj : j < H.length) :
    historyAt (H.map some) (j : Int) = some (H.getD j blankBitmap) := by
  unfold historyAt
  rw [if_pos (Int.ofNat_nonneg j)]
  rw [show ((j : Int)).toNat = j from by omega]
  rw [List.getD_eq_getElem _ _ (by simpa using hj), List.getD_eq_getElem _ _ hj]
  simp

/-- `saveState` with the cursor at the end of a history that is not yet
full: plain append. -/
theorem saveState_at_end (s : CanvasState)
    (hstep : s.historyStep = (s.history.length : Int) - 1)
    (h49 : s.history.length ≤ 49) :
    saveState s = { s with
      history := s.history ++ [toDataURL s.buffer],
      historyStep := (s.history.length : Int),
      pages := jsSet s.pages s.currentPageIndex (toDataURL s.buffer) } := by
  simp only [saveState]
  rw [if_neg (show ¬ s.historyStep + 1 < (s.history.length : Int) from by omega)]
  rw [if_neg (show ¬ (s.history ++ [toDataURL s.buffer]).length > 50 from by
    rw [List.length_append]
    simp only [List.length_cons, List.length_nil]
    omega)]
  rw [hstep]
  norm_num

theorem stroke_chainState (H : List Bitmap) (v : Bitmap) (hne : H ≠ [])
    (h49 : H.length ≤ 49) :
    (applyOp (Op.stroke v) (chainState H (H.length - 1))).1
      = chainState (H ++ [v]) ((H ++ [v]).length - 1) := by
  have hpos : 0 < H.length := List.length_pos.mpr hne
  have h1 := saveState_at_end
    { buffer := v, pages := [some (H.getD (H.length - 1) blankBitmap)],
      currentPageIndex := 0, history := H.map some,
      historyStep := ((H.length - 1 : Nat) : Int) }
    (by dsimp only; rw [List.length_map]; omega)
    (by dsimp only; rw [List.length_map]; exact h49)
  show saveState
      { buffer := v, pages := [some (H.getD (H.length - 1) blankBitmap)],
        currentPageIndex := 0, history := H.map some,
        historyStep := ((H.length - 1 : Nat) : Int) }
    = chainState (H ++ [v]) ((H ++ [v]).length - 1)
  rw [h1]
  have hlen2 : (H ++ [v]).length - 1 = H.length := by
    rw [List.length_append]
    simp
  have hbuf : (H ++ [v]).getD H.length blankBitmap = v := by
    rw [List.getD_append_right _ _ _ _ (Nat.le_refl _)]
    simp
  unfold chainState
  rw [hlen2, hbuf]
  dsimp only
  rw [show jsSet [some (H.getD (H.length - 1) blankBitmap)] 0 (toDataURL v)
      = [some v] from by simp [jsSet, toDataURL]]
  rw [List.map_append, List.length_map]
  rfl

theorem undo_chainState (H : List Bitmap) (k : Nat) (hk : 0 < k)
    (hklen : k < H.length) :
    undoLast (chainState H k) = (chainState H (k - 1), none) := by
  have hb : historyAt (H.map some) ((k : Int) - 1)
      = some (H.getD (k - 1) blankBitmap) := by
    rw [show ((k : Int) - 1) = ((k - 1 : Nat) : Int) from by omega]
    exact historyAt_map_some H (k - 1) (by omega)
  rw [undoLast_pos _ (show (0 : Int) < (chainState H k).historyStep from by
    dsimp only [chainState]
    omega)]
  dsimp only [chainState]
  rw [hb, loadCanvasState_some]
  dsimp only
  rw [show jsSet [some (H.getD k blankBitmap)] 0 (some (H.getD (k - 1) blankBitmap))
    = [some (H.getD (k - 1) blankBitmap)] from by simp [jsSet]]
  rw [show ((k : Int) - 1) = ((k - 1 : Nat) : Int) from by omega]

theorem redo_chainState (H : List Bitmap) (k : Nat) (hk : k + 1 < H.length) :
    redoLast (chainState H k) = (chainState H (k + 1), none) := by
  have hb : historyAt (H.map some) ((k : Int) + 1)
      = some (H.getD (k + 1) blankBitmap) := by
    rw [show ((k : Int) + 1) = ((k + 1 : Nat) : Int) from by omega]
    exact historyAt_map_some H (k + 1) hk
  rw [redoLast_lt _ (show (chainState H k).historyStep
      < ((chainState H k).history.length : Int) - 1 from by
    dsimp only [chainState]
    rw [List.length_map]
    omega)]
  dsimp only [chainState]
  rw [hb, loadCanvasState_some]
  dsimp only
  rw [show jsSet [some (H.getD k blankBitmap)] 0 (some (H.getD (k + 1) blankBitmap))
    = [some (H.getD (k + 1) blankBitmap)] from by simp [jsSet]]
  rw [show ((k : Int) + 1) = ((k + 1 : Nat) : Int) from by omega]

theorem runChecked_cons (op : Op) (ops : List Op) (p : CanvasState × Bool) :
    runChecked (op :: ops) p
      = runChecked ops ((applyOp op p.1).1, p.2 && (applyOp op p.1).2.isNone) := rfl

theorem undoN_chainState (n : Nat) :
    ∀ (k : Nat) (H : List Bitmap) (c : Bool), n ≤ k → k < H.length →
    runChecked (List.replicate n Op.undo) (chainState H k, c)
      = (chainState H (k - n), c) := by
  induction n with
  | zero =>
      intro k H c _ _
      simp [runChecked]
  | succ n ih =>
      intro k H c hk hklen
      rw [List.replicate_succ, runChecked_cons]
      rw [show applyOp Op.undo (chainState H k, c).1 = (chainState H (k - 1), none)
        from undo_chainState H k (by omega) hklen]
      dsimp only
      simp only [Option.isNone_none, Bool.and_true]
      rw [ih (k - 1) H c (by omega) (by omega)]
      rw [show k - 1 - n = k - (n + 1) from by omega]

theorem redoN_chainState (n : Nat) :
    ∀ (k : Nat) (H : List Bitmap) (c : Bool), k + n < H.length →
    runChecked (List.replicate n Op.redo) (chainState H k, c)
      = (chainState H (k + n), c) := by
  induction n with
  | zero =>
      intro k H c _
      simp [runChecked]
  | succ n ih =>
      intro k H c hk
      rw [List.replicate_succ, runChecked_cons]
      rw [show applyOp Op.redo (chainState H k, c).1 = (chainState H (k + 1), none)
        from redo_chainState H k (by omega)]
      dsimp only
      simp only [Option.isNone_none, Bool.and_true]
      rw [ih (k + 1) H c (by omega)]
      rw [show k + 1 + n = k + (n + 1) from by omega]

theorem strokes_chainState (vs : List Bitmap) :
    ∀ (H : List Bitmap), H ≠ [] → H.length + vs.length ≤ 50 →
    runOps (vs.map Op.stroke) (chainState H (H.length - 1))
      = chainState (H ++ vs) ((H ++ vs).length - 1) := by
  induction vs with
  | nil =>
      intro H _ _
      simp [runOps]
  | cons v vs ih =>
      intro H hne hlen
      rw [List.map_cons, runOps_cons]
      rw [stroke_chainState H v hne (by
        simp only [List.length_cons] at hlen
        omega)]
      rw [ih (H ++ [v]) (by simp) (by
        simp only [List.length_append, List.length_cons, List.length_nil] at hlen ⊢
        omega)]
      rw [show (H ++ [v]) ++ vs = H ++ (v :: vs) from by simp]

theorem getD_length_sub_one (l : List Bitmap) (d : Bitmap) (h : l ≠ []) :
    l.getD (l.length - 1) d = l.getLastD d := by
  induction l with
  | nil => cases h rfl
  | cons a t ih =>
      cases t with
      | nil => rfl
      | cons b u =>
          rw [show (a :: b :: u).length - 1 = (b :: u).length - 1 + 1 from by simp]
          rw [show (a :: b :: u).getD ((b :: u).length - 1 + 1) d
            = (b :: u).getD ((b :: u).length - 1) d from rfl]
          rw [ih (by simp)]
          rfl

/-- C3 (amended): for every N with 1 ≤ N ≤ 49, from the startup state
(one blank page, one startup snapshot in history), performing N strokes
and then calling undo N times returns the buffer to its blank initial
state with every one of the N undo calls succeeding; calling redo N times
afterwards, with every call succeeding, restores the buffer to the state
after the N-th stroke.  (At N = 50 the overflow eviction removes the
startup snapshot and the 50th undo fails; see the counterexample.) -/
theorem strokes_undo_redo_roundtrip (vs : List Bitmap)
    (h1 : 1 ≤ vs.length) (h2 : vs.length ≤ 49) :
    (runChecked (List.replicate vs.length Op.undo)
        (runOps (vs.map Op.stroke) initState, true)).2 = true
    ∧ (runChecked (List.replicate vs.length Op.undo)
        (runOps (vs.map Op.stroke) initState, true)).1.buffer = blankBitmap
    ∧ (runChecked (List.replicate vs.length Op.redo)
        (runChecked (List.replicate vs.length Op.undo)
          (runOps (vs.map Op.stroke) initState, true))).2 = true
    ∧ (runChecked (List.replicate vs.length Op.redo)
        (runChecked (List.replicate vs.length Op.undo)
          (runOps (vs.map Op.stroke) initState, true))).1.buffer
      = vs.getLastD blankBitmap := by
  have hrun : runOps (vs.map Op.stroke) initState
      = chainState (blankBitmap :: vs) vs.length := by
    rw [initState_eq_chainState]
    have h3 := strokes_chainState vs [blankBitmap] (by simp)
      (by simp only [List.length_cons, List.length_nil]; omega)
    rw [show ([blankBitmap] : List Bitmap).length - 1 = 0 from rfl] at h3
    rw [show ([blankBitmap] : List Bitmap) ++ vs = blankBitmap :: vs from rfl] at h3
    rw [show (blankBitmap :: vs).length - 1 = vs.length from by simp] at h3
    exact h3
  have hlen : vs.length < (blankBitmap :: vs).length := by simp
  have hundo := undoN_chainState vs.length vs.length (blankBitmap :: vs) true
    (Nat.le_refl _) hlen
  rw [Nat.sub_self] at hundo
  have hredo := redoN_chainState vs.length 0 (blankBitmap :: vs) true (by simp)
  rw [Nat.zero_add] at hredo
  rw [hrun, hundo, hredo]
  refine ⟨rfl, rfl, rfl, ?_⟩
  show (blankBitmap :: vs).getD vs.length blankBitmap = vs.getLastD blankBitmap
  cases vs with
  | nil => exact absurd h1 (by decide)
  | cons w ws =>
      rw [show (w :: ws).length = ws.length + 1 from rfl]
      rw [show (blankBitmap :: w :: ws).getD (ws.length + 1) blankBitmap
        = (w :: ws).getD ws.length blankBitmap from rfl]
      rw [show ws.length = (w :: ws).length - 1 from by simp]
      exact getD_length_sub_one (w :: ws) blankBitmap (by simp)

set_option maxRecDepth 100000 in
/-- Counterexample to C3 as stated: at N = 50 (allowed by the claim's
bound N ≤ 50), after 50 strokes the history overflow evicted the startup
blank snapshot, so one of the 50 undo calls fails (the 50th) and the
buffer ends at the first stroke's content instead of blank. -/
theorem fifty_strokes_undo_fails :
    (runChecked (List.replicate 50 Op.undo)
        (runOps (List.map Op.stroke (List.replicate 50 1)) initState, true)).2
      = false
    ∧ (runChecked (List.replicate 50 Op.undo)
        (runOps (List.map Op.stroke (List.replicate 50 1)) initState, true)).1.buffer
      ≠ blankBitmap := by
  constructor
  · decide
  · decide

/-- Witness for C3 (amended) with the two strokes 5 and 6: both undos
succeed, the buffer returns to blank, both redos succeed, and the buffer
ends at the second stroke's content. -/
theorem strokes_undo_redo_roundtrip_witness :
    (runChecked (List.replicate ([5, 6] : List Bitmap).length Op.undo)
        (runOps (([5, 6] : List Bitmap).map Op.stroke) initState, true)).2 = true
    ∧ (runChecked (List.replicate ([5, 6] : List Bitmap).length Op.undo)
        (runOps (([5, 6] : List Bitmap).map Op.stroke) initState, true)).1.buffer
      = blankBitmap
    ∧ (runChecked (List.replicate ([5, 6] : List Bitmap).length Op.redo)
        (runChecked (List.replicate ([5, 6] : List Bitmap).length Op.undo)
          (runOps (([5, 6] : List Bitmap).map Op.stroke) initState, true))).1.buffer
      = ([5, 6] : List Bitmap).getLastD blankBitmap := by
  have h := strokes_undo_redo_roundtrip [5, 6] (by decide) (by decide)
  exact ⟨h.1, h.2.1, h.2.2.2⟩

/-- Counterexample to C5 as stated: importing a document whose pages
list is empty from the reachable startup state empties the page
collection, so afterwards the length is 0 and the active index 0 is not
a valid index. -/
theorem import_empty_pages_breaks_invariant :
    Reachable initState
    ∧ ¬ (1 ≤ ((applyOp (Op.importFile (some { pages := some [] }))
            initState).1).pages.length
        ∧ ((applyOp (Op.importFile (some { pages := some [] }))
            initState).1).currentPageIndex
          < ((applyOp (Op.importFile (some { pages := some [] }))
            initState).1).pages.length) :=
  ⟨Reachable.init, by decide⟩

/-- Witness for C5 (amended) at the startup state. -/
theorem pages_invariant_witness :
    1 ≤ initState.pages.length
    ∧ initState.currentPageIndex < initState.pages.length :=
  pages_invariant initState PagesReachable.init

/-- Witness for C4 on the state after one stroke (cursor 1, history
length 2): undo does not report `NothingToUndo`, redo does. -/
theorem undo_redo_error_contract_witness :
    0 ≤ (runOps [Op.stroke 1] initState).historyStep
    ∧ ¬ ((undoLast (runOps [Op.stroke 1] initState)).2
          = some CanvasError.NothingToUndo)
    ∧ redoLast (runOps [Op.stroke 1] initState)
        = (runOps [Op.stroke 1] initState, some CanvasError.NothingToRedo) := by
  have h := undo_redo_error_contract (runOps [Op.stroke 1] initState)
    (by decide) (by decide)
  exact ⟨by decide, fun hc => by have := h.1.mp hc; revert this; decide,
    h.2.2.2.2.1 (by decide)⟩

end Prescription
